import Mathlib

/-!
Shallow embedding of the return-pattern analysis engine of `flake8-return`
(`src/flake8_return/visitors.py`).

The embedding models the modern-Python branch of the code
(`sys.version_info >= (3, 8)`), in which loop/try spans are recorded from
`end_lineno` when the parser provides one, and assignment targets are
recorded unconditionally.

Statement and expression trees are mutual inductives (`Stmt`/`StmtList`,
`Expr`/`ExprList`) so that the traversal functions are structurally
recursive and reduce inside the kernel.  A `StmtList`/`ExprList` is just a
list, specialised to allow the nested recursion.

The visitor state (`VState`) carries the stack of per-function scopes and
the emitted diagnostics, mirroring `ReturnVisitor._stack` and the error
list of the `flake8_plugin_utils` visitor.  `visit_Return` on an empty
stack indexes `self._stack[-1]` and raises; the traversal therefore
returns `Option VState`, with `none` standing for that failure.
-/

namespace Flake8Return

/-- The four diagnostic kinds of `flake8_return.errors`. -/
inductive Kind where
  | unnecessaryReturnNone
  | implicitReturnValue
  | implicitReturn
  | unnecessaryAssign
deriving DecidableEq, Repr

/-- One reported finding: kind plus the `lineno`/`col_offset` of the node
passed to `error_from_node`. -/
structure Diagnostic where
  kind : Kind
  line : Nat
  col : Nat
deriving DecidableEq, Repr

mutual
/-- Expression nodes, restricted to the shapes the engine distinguishes:
bare names, the `None` and `False` constants, other constants, tuple
literals, and a generic expression with children (calls, operators, …).
Every node carries its `lineno` and `col_offset`. -/
inductive Expr where
  | name (id : String) (lineno col : Nat)
  | constNone (lineno col : Nat)
  | constFalse (lineno col : Nat)
  | constOther (lineno col : Nat)
  | tuple (elts : ExprList) (lineno col : Nat)
  | otherExpr (children : ExprList) (lineno col : Nat)
inductive ExprList where
  | nil
  | cons (e : Expr) (rest : ExprList)
end

mutual
/-- Statement nodes.  `funcDef` covers `FunctionDef` and
`AsyncFunctionDef`, `forStmt` covers `For` and `AsyncFor`, and `withStmt`
covers `With` and `AsyncWith`; the visitor treats each pair identically.
`endLineno` is the optional `end_lineno` of loop/try nodes. -/
inductive Stmt where
  | ret (value : Option Expr) (lineno col : Nat)
  | assign (targets : ExprList) (value : Expr) (lineno col : Nat)
  | funcDef (fname : String) (body : StmtList) (lineno col : Nat)
  | ifStmt (test : Expr) (body orelse : StmtList) (lineno col : Nat)
  | forStmt (target iter : Expr) (body orelse : StmtList) (lineno col : Nat)
      (endLineno : Option Nat)
  | whileStmt (test : Expr) (body orelse : StmtList) (lineno col : Nat)
      (endLineno : Option Nat)
  | tryStmt (body : StmtList) (handlers : HandlerList) (orelse finalbody : StmtList)
      (lineno col : Nat) (endLineno : Option Nat)
  | withStmt (items : ExprList) (body : StmtList) (lineno col : Nat)
  | assertStmt (test : Expr) (lineno col : Nat)
  | raiseStmt (exc : Option Expr) (lineno col : Nat)
  | exprStmt (value : Expr) (lineno col : Nat)
inductive StmtList where
  | nil
  | cons (s : Stmt) (rest : StmtList)
/-- The bodies of the `except` handlers of a `Try` statement. -/
inductive HandlerList where
  | nil
  | cons (body : StmtList) (rest : HandlerList)
end

/-- A `Return` node as stored in a scope's `returns` list. -/
structure RetNode where
  value : Option Expr
  lineno : Nat
  col : Nat

/-- One per-function analysis record, one entry of `ReturnVisitor._stack`.
`assigns`/`refs` are the occurrence maps (name, line) in append order;
`tries`/`loops` map a block's start line to its end line. -/
structure Scope where
  assigns : List (String × Nat)
  refs : List (String × Nat)
  tries : List (Nat × Nat)
  loops : List (Nat × Nat)
  returns : List RetNode

def emptyScope : Scope := ⟨[], [], [], [], []⟩

/-- The line list `m[v]` of a `defaultdict(list)` occurrence map.  A key
is present exactly when some line was appended for it, so membership
(`v in m`) corresponds to this list being nonempty. -/
def name_lines (m : List (String × Nat)) (v : String) : List Nat :=
  (m.filter (fun p => decide (p.1 = v))).map (fun p => p.2)

def assignsOf (sc : Scope) (v : String) : List Nat := name_lines sc.assigns v

def refsOf (sc : Scope) (v : String) : List Nat := name_lines sc.refs v

/-- Dictionary update `d[k] = v` for the `tries`/`loops` maps: replace the
entry for `k` if present, otherwise append it. -/
def set_key : List (Nat × Nat) → Nat → Nat → List (Nat × Nat)
  | [], k, v => [(k, v)]
  | p :: rest, k, v =>
    if p.1 = k then (k, v) :: rest else p :: set_key rest k v

/-- Modelled from the spec: `is_none` from the repository's `utils.py`
(absent from `src/`): whether an expression is exactly the None literal. -/
def is_none : Expr → Bool
  | .constNone _ _ => true
  | _ => false

/-- `is_none(node.value)` where `node.value` may be Python `None` (no
value expression at all); `is_none(None)` is false. -/
def is_none_opt : Option Expr → Bool
  | some e => is_none e
  | none => false

/-- Modelled from the spec: `is_false` from the repository's `utils.py`
(absent from `src/`): whether an expression is a statically-false
literal. -/
def is_false : Expr → Bool
  | .constFalse _ _ => true
  | _ => false

/-- `UnnecessaryReturnNoneMixin._check_unnecessary_return_none`. -/
def check_unnecessary_return_none : List RetNode → List Diagnostic
  | [] => []
  | r :: rest =>
    (if is_none_opt r.value then [⟨.unnecessaryReturnNone, r.lineno, r.col⟩] else [])
      ++ check_unnecessary_return_none rest

/-- `ImplicitReturnValueMixin._check_implicit_return_value`: flag every
return with no value expression (`if not node.value`). -/
def check_implicit_return_value : List RetNode → List Diagnostic
  | [] => []
  | r :: rest =>
    (if r.value.isNone then [⟨.implicitReturnValue, r.lineno, r.col⟩] else [])
      ++ check_implicit_return_value rest

/-- `ReturnVisitor._result_exists`: some return carries a value other
than the None literal. -/
def result_exists : List RetNode → Bool
  | [] => false
  | r :: rest =>
    (match r.value with
     | some v => !(is_none v)
     | none => false) || result_exists rest

def StmtList.isNil : StmtList → Bool
  | .nil => true
  | .cons _ _ => false

def StmtList.length : StmtList → Nat
  | .nil => 0
  | .cons _ rest => 1 + rest.length

/-- `body[-1]` of a statement list, if any. -/
def StmtList.last? : StmtList → Option Stmt
  | .nil => none
  | .cons s .nil => some s
  | .cons _ rest => rest.last?

def is_return_stmt : Stmt → Bool
  | .ret _ _ _ => true
  | _ => false

/-- `isinstance(node.body[-1], ast.Return)` for a nonempty body. -/
def last_is_return (body : StmtList) : Bool :=
  match body.last? with
  | some s => is_return_stmt s
  | none => false

def Expr.isTuple : Expr → Bool
  | .tuple _ _ _ => true
  | _ => false

mutual
/-- `ImplicitReturnMixin._check_implicit_return`, by the kind of the
examined statement.  A `For` whose `orelse` is empty falls through to the
final `isinstance` test and is flagged, exactly as in the code. -/
def check_implicit_return : Stmt → List Diagnostic
  | .ifStmt _ body orelse l c =>
    if body.isNil || orelse.isNil then [⟨.implicitReturn, l, c⟩]
    else check_last body ++ check_last orelse
  | .forStmt _ _ _ orelse l c _ =>
    if !orelse.isNil then check_last orelse
    else [⟨.implicitReturn, l, c⟩]
  | .withStmt _ body _ _ => check_last body
  | .assertStmt t l c =>
    if is_false t then [] else [⟨.implicitReturn, l, c⟩]
  | .ret _ _ _ => []
  | .raiseStmt _ _ _ => []
  | .whileStmt _ _ _ _ _ _ => []
  | .tryStmt _ _ _ _ _ _ _ => []
  | .assign _ _ l c => [⟨.implicitReturn, l, c⟩]
  | .funcDef _ _ l c => [⟨.implicitReturn, l, c⟩]
  | .exprStmt _ l c => [⟨.implicitReturn, l, c⟩]
/-- Recursion of `_check_implicit_return` into `body[-1]`. -/
def check_last : StmtList → List Diagnostic
  | .nil => []
  | .cons s .nil => check_implicit_return s
  | .cons _ rest => check_last rest
end

/-- Python truthiness of an `Optional[int]` (`if after_assign:`). -/
def truthy : Option Nat → Bool
  | some n => !(n == 0)
  | none => false

def insert_sorted (x : Nat) : List Nat → List Nat
  | [] => [x]
  | y :: ys => if x ≤ y then x :: y :: ys else y :: insert_sorted x ys

/-- Ascending sort, as `sorted(...)` in
`_has_refs_before_next_assign`. -/
def sort_lines : List Nat → List Nat
  | [] => []
  | x :: xs => insert_sorted x (sort_lines xs)

/-- The first loop of `_has_refs_before_next_assign`: walk the sorted
assignment lines keeping the last one `≤ return_lineno` as `before`, and
stop at the first one `> return_lineno` as `after`. -/
def scan_assigns (return_lineno : Nat) : List Nat → Nat → Nat × Option Nat
  | [], before => (before, none)
  | l :: rest, before =>
    if return_lineno < l then (before, some l)
    else scan_assigns return_lineno rest l

/-- `UnnecessaryAssignMixin._has_refs_before_next_assign`. -/
def has_refs_before_next_assign (sc : Scope) (v : String) (return_lineno : Nat) : Bool :=
  let ba := scan_assigns return_lineno (sort_lines (assignsOf sc v)) 0
  (refsOf sc v).any (fun l =>
    if l = return_lineno then false
    else if truthy ba.2 then decide (ba.1 < l) && decide (l ≤ ba.2.getD 0)
    else decide (ba.1 < l))

/-- Whether `item` lies strictly inside one of the recorded spans:
`start < item <= end`. -/
def within_any (spans : List (Nat × Nat)) (item : Nat) : Bool :=
  spans.any (fun se => decide (se.1 < item) && decide (item ≤ se.2))

/-- `UnnecessaryAssignMixin._has_refs_or_assigns_within_try_or_loop`. -/
def has_refs_or_assigns_within_try_or_loop (sc : Scope) (v : String) : Bool :=
  (refsOf sc v ++ assignsOf sc v).any (fun item =>
    within_any sc.tries item || within_any sc.loops item)

/-- `UnnecessaryAssignMixin._check_unnecessary_assign`, on the value
expression of a return. -/
def check_unnecessary_assign (sc : Scope) (node : Expr) : List Diagnostic :=
  match node with
  | .name v l c =>
    if assignsOf sc v = [] then []
    else if refsOf sc v = [] then [⟨.unnecessaryAssign, l, c⟩]
    else if has_refs_before_next_assign sc v l then []
    else if has_refs_or_assigns_within_try_or_loop sc v then []
    else [⟨.unnecessaryAssign, l, c⟩]
  | _ => []

/-- The final loop of `ReturnVisitor._check_function`: run
`_check_unnecessary_assign` on the value of every value-carrying
return. -/
def check_unnecessary_assign_all (sc : Scope) : List RetNode → List Diagnostic
  | [] => []
  | r :: rest =>
    (match r.value with
     | some v => check_unnecessary_assign sc v
     | none => []) ++ check_unnecessary_assign_all sc rest

/-- `ReturnVisitor._check_function`, producing the diagnostics emitted at
scope exit for a function with the given body and populated scope. -/
def check_function (body : StmtList) (sc : Scope) : List Diagnostic :=
  if sc.returns.isEmpty || body.isNil then []
  else if (body.length == 1) && last_is_return body then []
  else if !result_exists sc.returns then check_unnecessary_return_none sc.returns
  else
    check_implicit_return_value sc.returns
      ++ check_last body
      ++ check_unnecessary_assign_all sc sc.returns

/-- The visitor state: the scope stack (`ReturnVisitor._stack`, head =
top) and the errors collected so far, in emission order. -/
structure VState where
  stack : List Scope
  errors : List Diagnostic

/-- `visit_Name` body: `if self._stack: self.refs[node.id].append(...)`. -/
def record_ref (st : VState) (v : String) (l : Nat) : VState :=
  match st.stack with
  | [] => st
  | sc :: rest => ⟨{ sc with refs := sc.refs ++ [(v, l)] } :: rest, st.errors⟩

/-- `self.assigns[node.id].append(node.lineno)`; only reached with a
nonempty stack (`visit_Assign` returns early otherwise). -/
def record_assign (st : VState) (v : String) (l : Nat) : VState :=
  match st.stack with
  | [] => st
  | sc :: rest => ⟨{ sc with assigns := sc.assigns ++ [(v, l)] } :: rest, st.errors⟩

/-- The span bookkeeping of `_visit_loop`: record the loop span when the
stack is nonempty and the node has an `end_lineno`. -/
def record_loop (st : VState) (l : Nat) (e : Option Nat) : VState :=
  match st.stack, e with
  | sc :: rest, some en => ⟨{ sc with loops := set_key sc.loops l en } :: rest, st.errors⟩
  | _, _ => st

/-- The span bookkeeping of `visit_Try`. -/
def record_try (st : VState) (l : Nat) (e : Option Nat) : VState :=
  match st.stack, e with
  | sc :: rest, some en => ⟨{ sc with tries := set_key sc.tries l en } :: rest, st.errors⟩
  | _, _ => st

mutual
/-- Dispatch of `ast.NodeVisitor.visit` on expression nodes: `visit_Name`
records a read; every other expression kind has no registered visitor and
falls to `generic_visit`, which visits the children. -/
def visitExpr (st : VState) : Expr → VState
  | .name v l _ => record_ref st v l
  | .constNone _ _ => st
  | .constFalse _ _ => st
  | .constOther _ _ => st
  | .tuple elts _ _ => visitExprList st elts
  | .otherExpr children _ _ => visitExprList st children
def visitExprList (st : VState) : ExprList → VState
  | .nil => st
  | .cons e rest => visitExprList (visitExpr st e) rest
end

/-- `generic_visit` applied to an expression node: visit its children
only, not the node itself (used as `self.generic_visit(node.value)` in
`visit_Assign`). -/
def generic_visit_expr (st : VState) : Expr → VState
  | .tuple elts _ _ => visitExprList st elts
  | .otherExpr children _ _ => visitExprList st children
  | _ => st

mutual
/-- `UnnecessaryAssignMixin._visit_assign_target`: recurse through tuple
targets, record simple-name targets as assignments, and `generic_visit`
anything else (subscripts, attributes, …). -/
def visit_assign_target (st : VState) : Expr → VState
  | .tuple elts _ _ => visit_assign_targets st elts
  | .name v l _ => record_assign st v l
  | .constNone l c => generic_visit_expr st (.constNone l c)
  | .constFalse l c => generic_visit_expr st (.constFalse l c)
  | .constOther l c => generic_visit_expr st (.constOther l c)
  | .otherExpr children l c => generic_visit_expr st (.otherExpr children l c)
def visit_assign_targets (st : VState) : ExprList → VState
  | .nil => st
  | .cons e rest => visit_assign_targets (visit_assign_target st e) rest
end

/-- The first step of `visit_Assign`: when the right-hand side is a bare
name, record its read before the general visit. -/
def assign_note_value_ref (st : VState) : Expr → VState
  | .name v vl _ => record_ref st v vl
  | _ => st

/-- The target step of `visit_Assign`: take `targets[0]`; skip it
entirely when it is a tuple-unpack of a non-tuple value, otherwise run
`_visit_assign_target` on it. -/
def assign_handle_target (st : VState) (targets : ExprList) (value : Expr) : VState :=
  match targets with
  | .nil => st
  | .cons t _ =>
    if t.isTuple && !value.isTuple then st
    else visit_assign_target st t

/-- `UnnecessaryAssignMixin.visit_Assign`: ignore module-level code; note
a bare-name right-hand side as a read, `generic_visit` the value, then
process `targets[0]` unless it is a tuple-unpack of a non-tuple value. -/
def visit_Assign (st : VState) (targets : ExprList) (value : Expr) : VState :=
  match st.stack with
  | [] => st
  | _ :: _ =>
    assign_handle_target (generic_visit_expr (assign_note_value_ref st value) value)
      targets value

/-- `generic_visit` of a `Return` node: visit its value expression. -/
def visit_return_value (st : VState) : Option Expr → VState
  | some e => visitExpr st e
  | none => st

mutual
/-- Dispatch of `ReturnVisitor.visit` on statement nodes.  `visit_Return`
reads `self._stack[-1]` before any guard, so visiting a `Return` with an
empty stack fails (`none`).  `funcDef` is `_visit_with_stack`: push a
fresh scope, traverse the body, run `_check_function`, pop. -/
def visitStmt (st : VState) : Stmt → Option VState
  | .ret v l c =>
    match st.stack with
    | [] => none
    | sc :: rest =>
      some (visit_return_value
        ⟨{ sc with returns := sc.returns ++ [⟨v, l, c⟩] } :: rest, st.errors⟩ v)
  | .assign targets value _ _ => some (visit_Assign st targets value)
  | .funcDef _ body _ _ =>
    (visitStmtList ⟨emptyScope :: st.stack, st.errors⟩ body).bind fun st2 =>
      match st2.stack with
      | [] => none
      | sc :: rest => some ⟨rest, st2.errors ++ check_function body sc⟩
  | .ifStmt t body orelse _ _ =>
    (visitStmtList (visitExpr st t) body).bind fun st2 => visitStmtList st2 orelse
  | .forStmt target iter body orelse l _ e =>
    (visitStmtList (visitExpr (visitExpr (record_loop st l e) target) iter) body).bind
      fun st2 => visitStmtList st2 orelse
  | .whileStmt t body orelse l _ e =>
    (visitStmtList (visitExpr (record_loop st l e) t) body).bind
      fun st2 => visitStmtList st2 orelse
  | .tryStmt body handlers orelse finalbody l _ e =>
    (visitStmtList (record_try st l e) body).bind fun st2 =>
      (visitHandlers st2 handlers).bind fun st3 =>
        (visitStmtList st3 orelse).bind fun st4 => visitStmtList st4 finalbody
  | .withStmt items body _ _ => visitStmtList (visitExprList st items) body
  | .assertStmt t _ _ => some (visitExpr st t)
  | .raiseStmt exc _ _ => some (visit_return_value st exc)
  | .exprStmt v _ _ => some (visitExpr st v)
def visitStmtList (st : VState) : StmtList → Option VState
  | .nil => some st
  | .cons s rest => (visitStmt st s).bind fun st1 => visitStmtList st1 rest
def visitHandlers (st : VState) : HandlerList → Option VState
  | .nil => some st
  | .cons h rest => (visitStmtList st h).bind fun st1 => visitHandlers st1 rest
end

/-- Run the visitor on a module body from the initial state, yielding the
diagnostic sequence (or `none` on the `visit_Return` failure). -/
def analyze (stmts : StmtList) : Option (List Diagnostic) :=
  match visitStmtList ⟨[], []⟩ stmts with
  | some st => some st.errors
  | none => none

mutual
/-- The `(lineno, col)` positions of the nodes of an expression in the
order the traversal reaches them (the node itself, then its children). -/
def exprOrder : Expr → List (Nat × Nat)
  | .name _ l c => [(l, c)]
  | .constNone l c => [(l, c)]
  | .constFalse l c => [(l, c)]
  | .constOther l c => [(l, c)]
  | .tuple elts l c => (l, c) :: exprOrderList elts
  | .otherExpr children l c => (l, c) :: exprOrderList children
def exprOrderList : ExprList → List (Nat × Nat)
  | .nil => []
  | .cons e rest => exprOrder e ++ exprOrderList rest
end

def optExprOrder : Option Expr → List (Nat × Nat)
  | some e => exprOrder e
  | none => []

mutual
/-- The `(lineno, col)` positions of the nodes of a statement tree in the
order the traversal reaches them. -/
def stmtOrder : Stmt → List (Nat × Nat)
  | .ret v l c => (l, c) :: optExprOrder v
  | .assign targets value l c => (l, c) :: (exprOrder value ++ exprOrderList targets)
  | .funcDef _ body l c => (l, c) :: stmtListOrder body
  | .ifStmt t body orelse l c =>
    (l, c) :: (exprOrder t ++ stmtListOrder body ++ stmtListOrder orelse)
  | .forStmt target iter body orelse l c _ =>
    (l, c) :: (exprOrder target ++ exprOrder iter ++ stmtListOrder body ++ stmtListOrder orelse)
  | .whileStmt t body orelse l c _ =>
    (l, c) :: (exprOrder t ++ stmtListOrder body ++ stmtListOrder orelse)
  | .tryStmt body handlers orelse finalbody l c _ =>
    (l, c) :: (stmtListOrder body ++ handlerOrder handlers
      ++ stmtListOrder orelse ++ stmtListOrder finalbody)
  | .withStmt items body l c => (l, c) :: (exprOrderList items ++ stmtListOrder body)
  | .assertStmt t l c => (l, c) :: exprOrder t
  | .raiseStmt exc l c => (l, c) :: optExprOrder exc
  | .exprStmt v l c => (l, c) :: exprOrder v
def stmtListOrder : StmtList → List (Nat × Nat)
  | .nil => []
  | .cons s rest => stmtOrder s ++ stmtListOrder rest
def handlerOrder : HandlerList → List (Nat × Nat)
  | .nil => []
  | .cons h rest => stmtListOrder h ++ handlerOrder rest
end

mutual
/-- Whether no `Return` statement is reachable in this subtree without
first passing through a nested `FunctionDefinition`: the precondition
under which module-level traversal cannot hit the unguarded
`self._stack[-1]` of `visit_Return`. -/
def no_top_return : Stmt → Bool
  | .ret _ _ _ => false
  | .assign _ _ _ _ => true
  | .funcDef _ _ _ _ => true
  | .ifStmt _ body orelse _ _ => no_top_return_list body && no_top_return_list orelse
  | .forStmt _ _ body orelse _ _ _ => no_top_return_list body && no_top_return_list orelse
  | .whileStmt _ body orelse _ _ _ => no_top_return_list body && no_top_return_list orelse
  | .tryStmt body handlers orelse finalbody _ _ _ =>
    no_top_return_list body && no_top_return_handlers handlers
      && no_top_return_list orelse && no_top_return_list finalbody
  | .withStmt _ body _ _ => no_top_return_list body
  | .assertStmt _ _ _ => true
  | .raiseStmt _ _ _ => true
  | .exprStmt _ _ _ => true
def no_top_return_list : StmtList → Bool
  | .nil => true
  | .cons s rest => no_top_return s && no_top_return_list rest
def no_top_return_handlers : HandlerList → Bool
  | .nil => true
  | .cons h rest => no_top_return_list h && no_top_return_handlers rest
end

/-- `st2` differs from `st` at most in the top scope. -/
def preserves (st st2 : VState) : Prop :=
  st2.errors = st.errors ∧ st2.stack.tail = st.stack.tail
    ∧ st2.stack.length = st.stack.length

/-! ### Concrete example programs and scopes -/

/-- The scope of `f(): x = 1; return x` — one binding of `x` at line 2,
read only by the return's value at line 3. -/
def singleUseScope : Scope :=
  ⟨[("x", 2)], [("x", 3)], [], [], [⟨some (.name "x" 3 11), 3, 4⟩]⟩

/-- Body of `f(): if c: return 1` followed by a bare `return`. -/
def mixedBody : StmtList :=
  .cons (.ifStmt (.name "c" 2 7)
    (.cons (.ret (some (.constOther 2 17)) 2 10) .nil) .nil 2 4)
  (.cons (.ret none 3 4) .nil)

/-- The scope the traversal builds for `mixedBody`. -/
def mixedScope : Scope :=
  ⟨[], [("c", 2)], [], [], [⟨some (.constOther 2 17), 2, 10⟩, ⟨none, 3, 4⟩]⟩

/-- Body of `f(): if c: return 1` with no else branch. -/
def noElseBody : StmtList :=
  .cons (.ifStmt (.name "c" 2 7)
    (.cons (.ret (some (.constOther 2 17)) 2 10) .nil) .nil 2 4) .nil

/-- The scope the traversal builds for `noElseBody`. -/
def noElseScope : Scope :=
  ⟨[], [("c", 2)], [], [], [⟨some (.constOther 2 17), 2, 10⟩]⟩

/-- Body of `f(): if c: return 1 else: return 2`. -/
def bothBody : StmtList :=
  .cons (.ifStmt (.name "c" 2 7)
    (.cons (.ret (some (.constOther 3 15)) 3 8) .nil)
    (.cons (.ret (some (.constOther 5 15)) 5 8) .nil) 2 4) .nil

/-- The scope the traversal builds for `bothBody`. -/
def bothScope : Scope :=
  ⟨[], [("c", 2)], [], [],
    [⟨some (.constOther 3 15), 3, 8⟩, ⟨some (.constOther 5 15), 5, 8⟩]⟩

/-- Module `f(): x = 1; return x; foo()` — the returned-variable check
fires for the name at line 3 while the fall-through check fires for the
later-traversed call statement at line 4. -/
def interleavedModule : StmtList :=
  .cons (.funcDef "f"
    (.cons (.assign (.cons (.name "x" 2 4) .nil) (.constOther 2 8) 2 4)
    (.cons (.ret (some (.name "x" 3 11)) 3 4)
    (.cons (.exprStmt (.otherExpr (.cons (.name "foo" 4 4) .nil) 4 4) 4 4) .nil))) 1 0) .nil

/-- Body of `f(): x = 1; return x`. -/
def singleUseBody : StmtList :=
  .cons (.assign (.cons (.name "x" 2 4) .nil) (.constOther 2 8) 2 4)
  (.cons (.ret (some (.name "x" 3 11)) 3 4) .nil)

/-- A scope whose only assignment of `x` lies strictly inside a recorded
loop span. -/
def loopSuppressScope : Scope := ⟨[("x", 2)], [("x", 4)], [], [(1, 3)], []⟩

/-- A scope where `x` has a genuine intervening read (line 3), so no
finding is produced even without any spans. -/
def plainScope : Scope := ⟨[("x", 2)], [("x", 3), ("x", 4)], [], [], []⟩

/-! ### Basic facts about the per-check emitters -/

theorem check_last_eq : ∀ (l : StmtList) (s : Stmt), l.last? = some s →
    check_last l = check_implicit_return s
  | .cons _ .nil, s, h => by
    simp [StmtList.last?] at h
    subst h
    rfl
  | .cons _ (.cons s1 r), s, h => by
    simp only [StmtList.last?] at h
    have := check_last_eq (.cons s1 r) s h
    simpa [check_last] using this
  | .nil, s, h => by simp [StmtList.last?] at h

mutual
theorem check_implicit_return_kinds (s : Stmt) :
    ∀ x ∈ check_implicit_return s, x.kind = Kind.implicitReturn := by
  cases s with
  | ifStmt t body orelse l c =>
    intro x hx
    simp only [check_implicit_return] at hx
    split at hx
    · simp_all
    · rcases List.mem_append.mp hx with h | h
      · exact check_last_kinds body x h
      · exact check_last_kinds orelse x h
  | forStmt tg it body orelse l c e =>
    intro x hx
    simp only [check_implicit_return] at hx
    split at hx
    · exact check_last_kinds orelse x hx
    · simp_all
  | withStmt items body l c =>
    intro x hx
    simp only [check_implicit_return] at hx
    exact check_last_kinds body x hx
  | assertStmt t l c =>
    intro x hx
    simp only [check_implicit_return] at hx
    split at hx <;> simp_all
  | ret v l c => simp [check_implicit_return]
  | raiseStmt e l c => simp [check_implicit_return]
  | whileStmt t b o l c e => simp [check_implicit_return]
  | tryStmt b hs o f l c e => simp [check_implicit_return]
  | assign tg v l c => simp [check_implicit_return]
  | funcDef n b l c => simp [check_implicit_return]
  | exprStmt v l c => simp [check_implicit_return]
theorem check_last_kinds (l : StmtList) :
    ∀ x ∈ check_last l, x.kind = Kind.implicitReturn := by
  cases l with
  | nil => simp [check_last]
  | cons s rest =>
    cases rest with
    | nil =>
      intro x hx
      simp only [check_last] at hx
      exact check_implicit_return_kinds s x hx
    | cons s2 r2 =>
      intro x hx
      simp only [check_last] at hx
      exact check_last_kinds (StmtList.cons s2 r2) x hx
end

theorem check_unnecessary_return_none_kinds (rs : List RetNode) :
    ∀ x ∈ check_unnecessary_return_none rs, x.kind = Kind.unnecessaryReturnNone := by
  induction rs with
  | nil => simp [check_unnecessary_return_none]
  | cons r rest ih =>
    intro x hx
    simp only [check_unnecessary_return_none, List.mem_append] at hx
    rcases hx with hx | hx
    · split at hx <;> simp_all
    · exact ih x hx

theorem check_implicit_return_value_kinds (rs : List RetNode) :
    ∀ x ∈ check_implicit_return_value rs, x.kind = Kind.implicitReturnValue := by
  induction rs with
  | nil => simp [check_implicit_return_value]
  | cons r rest ih =>
    intro x hx
    simp only [check_implicit_return_value, List.mem_append] at hx
    rcases hx with hx | hx
    · split at hx <;> simp_all
    · exact ih x hx

theorem check_unnecessary_assign_kinds (sc : Scope) (e : Expr) :
    ∀ x ∈ check_unnecessary_assign sc e, x.kind = Kind.unnecessaryAssign := by
  intro x hx
  cases e <;> simp only [check_unnecessary_assign] at hx <;> try simp_all
  case name v l c => split_ifs at hx <;> simp_all

theorem check_unnecessary_assign_all_kinds (sc : Scope) (rs : List RetNode) :
    ∀ x ∈ check_unnecessary_assign_all sc rs, x.kind = Kind.unnecessaryAssign := by
  induction rs with
  | nil => simp [check_unnecessary_assign_all]
  | cons r rest ih =>
    intro x hx
    simp only [check_unnecessary_assign_all, List.mem_append] at hx
    rcases hx with hx | hx
    · rcases hr : r.value with _ | v
      · simp [hr] at hx
      · rw [hr] at hx
        exact check_unnecessary_assign_kinds sc v x hx
    · exact ih x hx

/-- `_check_implicit_return_value` emits one diagnostic per bare return,
at that return's own position, in the order the returns were recorded. -/
theorem check_implicit_return_value_eq (rs : List RetNode) :
    check_implicit_return_value rs
      = (rs.filter (fun r => r.value.isNone)).map
          (fun r => ⟨Kind.implicitReturnValue, r.lineno, r.col⟩) := by
  induction rs with
  | nil => simp [check_implicit_return_value]
  | cons r rest ih =>
    simp only [check_implicit_return_value, ih, List.filter_cons]
    split <;> simp_all

theorem result_exists_ne_nil (rs : List RetNode) (h : result_exists rs = true) :
    rs.isEmpty = false := by
  cases rs with
  | nil => simp [result_exists] at h
  | cons r rest => simp [List.isEmpty]

/-! ### Shape preservation of the recording visitors

A visit step outside `visit_Return`/`_visit_with_stack` mutates at most
the top scope: the error list, the stack below the top, and the stack
depth are untouched. -/

theorem preserves_refl (st : VState) : preserves st st := ⟨rfl, rfl, rfl⟩

theorem preserves_trans {a b c : VState} (h1 : preserves a b) (h2 : preserves b c) :
    preserves a c :=
  ⟨h2.1.trans h1.1, h2.2.1.trans h1.2.1, h2.2.2.trans h1.2.2⟩

theorem record_ref_preserves (st : VState) (v : String) (l : Nat) :
    preserves st (record_ref st v l) := by
  cases h : st.stack with
  | nil => simp [record_ref, h, preserves, List.tail]
  | cons sc rest => simp [record_ref, h, preserves, List.tail]

theorem record_assign_preserves (st : VState) (v : String) (l : Nat) :
    preserves st (record_assign st v l) := by
  cases h : st.stack with
  | nil => simp [record_assign, h, preserves, List.tail]
  | cons sc rest => simp [record_assign, h, preserves, List.tail]

theorem record_loop_preserves (st : VState) (l : Nat) (e : Option Nat) :
    preserves st (record_loop st l e) := by
  cases h : st.stack with
  | nil => cases e <;> simp [record_loop, h, preserves, List.tail]
  | cons sc rest => cases e <;> simp [record_loop, h, preserves, List.tail]

theorem record_try_preserves (st : VState) (l : Nat) (e : Option Nat) :
    preserves st (record_try st l e) := by
  cases h : st.stack with
  | nil => cases e <;> simp [record_try, h, preserves, List.tail]
  | cons sc rest => cases e <;> simp [record_try, h, preserves, List.tail]

mutual
theorem visitExpr_preserves (st : VState) (e : Expr) :
    preserves st (visitExpr st e) := by
  cases e with
  | name v l c => exact record_ref_preserves st v l
  | constNone l c => exact preserves_refl st
  | constFalse l c => exact preserves_refl st
  | constOther l c => exact preserves_refl st
  | tuple elts l c => exact visitExprList_preserves st elts
  | otherExpr children l c => exact visitExprList_preserves st children
theorem visitExprList_preserves (st : VState) (l : ExprList) :
    preserves st (visitExprList st l) := by
  cases l with
  | nil => exact preserves_refl st
  | cons e rest =>
    exact preserves_trans (visitExpr_preserves st e)
      (visitExprList_preserves (visitExpr st e) rest)
end

theorem generic_visit_expr_preserves (st : VState) (e : Expr) :
    preserves st (generic_visit_expr st e) := by
  cases e with
  | tuple elts l c => exact visitExprList_preserves st elts
  | otherExpr children l c => exact visitExprList_preserves st children
  | name v l c => exact preserves_refl st
  | constNone l c => exact preserves_refl st
  | constFalse l c => exact preserves_refl st
  | constOther l c => exact preserves_refl st

mutual
theorem visit_assign_target_preserves (st : VState) (e : Expr) :
    preserves st (visit_assign_target st e) := by
  cases e with
  | tuple elts l c => exact visit_assign_targets_preserves st elts
  | name v l c => exact record_assign_preserves st v l
  | constNone l c => exact generic_visit_expr_preserves st (.constNone l c)
  | constFalse l c => exact generic_visit_expr_preserves st (.constFalse l c)
  | constOther l c => exact generic_visit_expr_preserves st (.constOther l c)
  | otherExpr children l c => exact generic_visit_expr_preserves st (.otherExpr children l c)
theorem visit_assign_targets_preserves (st : VState) (l : ExprList) :
    preserves st (visit_assign_targets st l) := by
  cases l with
  | nil => exact preserves_refl st
  | cons e rest =>
    exact preserves_trans (visit_assign_target_preserves st e)
      (visit_assign_targets_preserves (visit_assign_target st e) rest)
end

theorem assign_note_value_ref_preserves (st : VState) (e : Expr) :
    preserves st (assign_note_value_ref st e) := by
  cases e with
  | name v l c => exact record_ref_preserves st v l
  | constNone l c => exact preserves_refl st
  | constFalse l c => exact preserves_refl st
  | constOther l c => exact preserves_refl st
  | tuple elts l c => exact preserves_refl st
  | otherExpr children l c => exact preserves_refl st

theorem assign_handle_target_preserves (st : VState) (targets : ExprList) (value : Expr) :
    preserves st (assign_handle_target st targets value) := by
  cases targets with
  | nil => exact preserves_refl st
  | cons t rest =>
    simp only [assign_handle_target]
    split
    · exact preserves_refl st
    · exact visit_assign_target_preserves st t

theorem visit_Assign_preserves (st : VState) (targets : ExprList) (value : Expr) :
    preserves st (visit_Assign st targets value) := by
  cases h : st.stack with
  | nil => simp [visit_Assign, h, preserves_refl]
  | cons sc rest =>
    simp only [visit_Assign, h]
    exact preserves_trans
      (preserves_trans (assign_note_value_ref_preserves st value)
        (generic_visit_expr_preserves (assign_note_value_ref st value) value))
      (assign_handle_target_preserves
        (generic_visit_expr (assign_note_value_ref st value) value) targets value)

theorem visit_return_value_preserves (st : VState) (v : Option Expr) :
    preserves st (visit_return_value st v) := by
  cases v with
  | none => exact preserves_refl st
  | some e => exact visitExpr_preserves st e

/-! ### Stack-depth preservation of the full traversal

`_visit_with_stack` pushes and pops in a balanced way, so every
successful visit leaves the scope stack at its original depth. -/

mutual
theorem visitStmt_len (st : VState) (s : Stmt) (st2 : VState)
    (h : visitStmt st s = some st2) : st2.stack.length = st.stack.length := by
  cases s with
  | ret v l c =>
    simp only [visitStmt] at h
    rcases hs : st.stack with _ | ⟨sc, rest⟩ <;> rw [hs] at h
    · exact absurd h (by simp)
    · simp only [Option.some.injEq] at h
      subst h
      rw [(visit_return_value_preserves _ v).2.2]
      simp [hs]
  | assign targets value l c =>
    simp only [visitStmt, Option.some.injEq] at h
    subst h
    exact (visit_Assign_preserves st targets value).2.2
  | funcDef n body l c =>
    simp only [visitStmt] at h
    rcases Option.bind_eq_some.mp h with ⟨st3, h1, h2⟩
    have hlen := visitStmtList_len _ body st3 h1
    rcases hs : st3.stack with _ | ⟨sc, rest⟩ <;> rw [hs] at h2
    · exact absurd h2 (by simp)
    · simp only [Option.some.injEq] at h2
      subst h2
      rw [hs] at hlen
      simp only [List.length_cons] at hlen ⊢
      simpa using hlen
  | ifStmt t body orelse l c =>
    simp only [visitStmt] at h
    rcases Option.bind_eq_some.mp h with ⟨st3, h1, h2⟩
    rw [visitStmtList_len _ orelse st2 h2, visitStmtList_len _ body st3 h1,
      (visitExpr_preserves st t).2.2]
  | forStmt target iter body orelse l c e =>
    simp only [visitStmt] at h
    rcases Option.bind_eq_some.mp h with ⟨st3, h1, h2⟩
    rw [visitStmtList_len _ orelse st2 h2, visitStmtList_len _ body st3 h1,
      (visitExpr_preserves _ iter).2.2, (visitExpr_preserves _ target).2.2,
      (record_loop_preserves st l e).2.2]
  | whileStmt t body orelse l c e =>
    simp only [visitStmt] at h
    rcases Option.bind_eq_some.mp h with ⟨st3, h1, h2⟩
    rw [visitStmtList_len _ orelse st2 h2, visitStmtList_len _ body st3 h1,
      (visitExpr_preserves _ t).2.2, (record_loop_preserves st l e).2.2]
  | tryStmt body handlers orelse finalbody l c e =>
    simp only [visitStmt] at h
    rcases Option.bind_eq_some.mp h with ⟨st3, h1, h2⟩
    rcases Option.bind_eq_some.mp h2 with ⟨st4, h3, h4⟩
    rcases Option.bind_eq_some.mp h4 with ⟨st5, h5, h6⟩
    rw [visitStmtList_len _ finalbody st2 h6, visitStmtList_len _ orelse st5 h5,
      visitHandlers_len _ handlers st4 h3, visitStmtList_len _ body st3 h1,
      (record_try_preserves st l e).2.2]
  | withStmt items body l c =>
    simp only [visitStmt] at h
    rw [visitStmtList_len _ body st2 h, (visitExprList_preserves st items).2.2]
  | assertStmt t l c =>
    simp only [visitStmt, Option.some.injEq] at h
    subst h
    exact (visitExpr_preserves st t).2.2
  | raiseStmt exc l c =>
    simp only [visitStmt, Option.some.injEq] at h
    subst h
    exact (visit_return_value_preserves st exc).2.2
  | exprStmt v l c =>
    simp only [visitStmt, Option.some.injEq] at h
    subst h
    exact (visitExpr_preserves st v).2.2
theorem visitStmtList_len (st : VState) (l : StmtList) (st2 : VState)
    (h : visitStmtList st l = some st2) : st2.stack.length = st.stack.length := by
  cases l with
  | nil =>
    simp only [visitStmtList, Option.some.injEq] at h
    subst h
    rfl
  | cons s rest =>
    simp only [visitStmtList] at h
    rcases Option.bind_eq_some.mp h with ⟨st1, h1, h2⟩
    rw [visitStmtList_len st1 rest st2 h2, visitStmt_len st s st1 h1]
theorem visitHandlers_len (st : VState) (hl : HandlerList) (st2 : VState)
    (h : visitHandlers st hl = some st2) : st2.stack.length = st.stack.length := by
  cases hl with
  | nil =>
    simp only [visitHandlers, Option.some.injEq] at h
    subst h
    rfl
  | cons hb rest =>
    simp only [visitHandlers] at h
    rcases Option.bind_eq_some.mp h with ⟨st1, h1, h2⟩
    rw [visitHandlers_len st1 rest st2 h2, visitStmtList_len st hb st1 h1]
end

/-! ### Totality of the traversal away from module-level returns

`visit_Return` is the only visit that dereferences the top of the stack
without a guard.  `no_top_return` states that no `Return` statement is
reachable without first passing through a `FunctionDefinition`; under it
(or under a nonempty stack) the traversal always succeeds. -/

theorem stack_ne_nil_of_len {st st2 : VState} (hlen : st2.stack.length = st.stack.length)
    (h : st.stack ≠ []) : st2.stack ≠ [] := by
  intro hnil
  rw [hnil] at hlen
  exact h (List.length_eq_zero.mp hlen.symm)

mutual
theorem visitStmt_total (st : VState) (s : Stmt)
    (h : st.stack ≠ [] ∨ no_top_return s = true) : (visitStmt st s).isSome = true := by
  cases s with
  | ret v l c =>
    have hs : st.stack ≠ [] := by
      rcases h with h | h
      · exact h
      · simp [no_top_return] at h
    rcases hx : st.stack with _ | ⟨sc, rest⟩
    · exact absurd hx hs
    · simp [visitStmt, hx]
  | assign targets value l c => simp [visitStmt]
  | funcDef n body l c =>
    have h1 := visitStmtList_total ⟨emptyScope :: st.stack, st.errors⟩ body
      (Or.inl (by simp))
    rcases hx : visitStmtList ⟨emptyScope :: st.stack, st.errors⟩ body with _ | st2
    · rw [hx] at h1
      simp at h1
    · have hlen := visitStmtList_len _ body st2 hx
      have hne : st2.stack ≠ [] := stack_ne_nil_of_len hlen (by simp)
      rcases hy : st2.stack with _ | ⟨sc, rest⟩
      · exact absurd hy hne
      · simp [visitStmt, hx, hy]
  | ifStmt t body orelse l c =>
    have hpre := (visitExpr_preserves st t).2.2
    have hb : (visitExpr st t).stack ≠ [] ∨ no_top_return_list body = true := by
      rcases h with h | h
      · exact Or.inl (stack_ne_nil_of_len hpre h)
      · simp [no_top_return] at h
        exact Or.inr h.1
    have h1 := visitStmtList_total (visitExpr st t) body hb
    rcases hx : visitStmtList (visitExpr st t) body with _ | st2
    · rw [hx] at h1
      simp at h1
    · have hlen := visitStmtList_len _ body st2 hx
      have ho : st2.stack ≠ [] ∨ no_top_return_list orelse = true := by
        rcases h with h | h
        · exact Or.inl (stack_ne_nil_of_len (hlen.trans hpre) h)
        · simp [no_top_return] at h
          exact Or.inr h.2
      have h2 := visitStmtList_total st2 orelse ho
      simp only [visitStmt, hx, Option.some_bind]
      exact h2
  | forStmt target iter body orelse l c e =>
    have hpre : (visitExpr (visitExpr (record_loop st l e) target) iter).stack.length
        = st.stack.length := by
      rw [(visitExpr_preserves _ iter).2.2, (visitExpr_preserves _ target).2.2,
        (record_loop_preserves st l e).2.2]
    have hb : (visitExpr (visitExpr (record_loop st l e) target) iter).stack ≠ []
        ∨ no_top_return_list body = true := by
      rcases h with h | h
      · exact Or.inl (stack_ne_nil_of_len hpre h)
      · simp [no_top_return] at h
        exact Or.inr h.1
    have h1 := visitStmtList_total _ body hb
    rcases hx : visitStmtList (visitExpr (visitExpr (record_loop st l e) target) iter) body
      with _ | st2
    · rw [hx] at h1
      simp at h1
    · have hlen := visitStmtList_len _ body st2 hx
      have ho : st2.stack ≠ [] ∨ no_top_return_list orelse = true := by
        rcases h with h | h
        · exact Or.inl (stack_ne_nil_of_len (hlen.trans hpre) h)
        · simp [no_top_return] at h
          exact Or.inr h.2
      have h2 := visitStmtList_total st2 orelse ho
      simp only [visitStmt, hx, Option.some_bind]
      exact h2
  | whileStmt t body orelse l c e =>
    have hpre : (visitExpr (record_loop st l e) t).stack.length = st.stack.length := by
      rw [(visitExpr_preserves _ t).2.2, (record_loop_preserves st l e).2.2]
    have hb : (visitExpr (record_loop st l e) t).stack ≠ []
        ∨ no_top_return_list body = true := by
      rcases h with h | h
      · exact Or.inl (stack_ne_nil_of_len hpre h)
      · simp [no_top_return] at h
        exact Or.inr h.1
    have h1 := visitStmtList_total _ body hb
    rcases hx : visitStmtList (visitExpr (record_loop st l e) t) body with _ | st2
    · rw [hx] at h1
      simp at h1
    · have hlen := visitStmtList_len _ body st2 hx
      have ho : st2.stack ≠ [] ∨ no_top_return_list orelse = true := by
        rcases h with h | h
        · exact Or.inl (stack_ne_nil_of_len (hlen.trans hpre) h)
        · simp [no_top_return] at h
          exact Or.inr h.2
      have h2 := visitStmtList_total st2 orelse ho
      simp only [visitStmt, hx, Option.some_bind]
      exact h2
  | tryStmt body handlers orelse finalbody l c e =>
    have hpre := (record_try_preserves st l e).2.2
    have hcomp : no_top_return (Stmt.tryStmt body handlers orelse finalbody l c e) = true
        → no_top_return_list body = true ∧ no_top_return_handlers handlers = true
          ∧ no_top_return_list orelse = true ∧ no_top_return_list finalbody = true := by
      intro hh
      simp [no_top_return] at hh
      exact ⟨hh.1.1.1, hh.1.1.2, hh.1.2, hh.2⟩
    have hb : (record_try st l e).stack ≠ [] ∨ no_top_return_list body = true := by
      rcases h with h | h
      · exact Or.inl (stack_ne_nil_of_len hpre h)
      · exact Or.inr (hcomp h).1
    have h1 := visitStmtList_total _ body hb
    rcases hx : visitStmtList (record_try st l e) body with _ | st2
    · rw [hx] at h1
      simp at h1
    · have hlen2 := visitStmtList_len _ body st2 hx
      have hh : st2.stack ≠ [] ∨ no_top_return_handlers handlers = true := by
        rcases h with h | h
        · exact Or.inl (stack_ne_nil_of_len (hlen2.trans hpre) h)
        · exact Or.inr (hcomp h).2.1
      have h2 := visitHandlers_total st2 handlers hh
      rcases hy : visitHandlers st2 handlers with _ | st3
      · rw [hy] at h2
        simp at h2
      · have hlen3 := visitHandlers_len _ handlers st3 hy
        have hortl : st3.stack ≠ [] ∨ no_top_return_list orelse = true := by
          rcases h with h | h
          · exact Or.inl (stack_ne_nil_of_len ((hlen3.trans hlen2).trans hpre) h)
          · exact Or.inr (hcomp h).2.2.1
        have h3 := visitStmtList_total st3 orelse hortl
        rcases hz : visitStmtList st3 orelse with _ | st4
        · rw [hz] at h3
          simp at h3
        · have hlen4 := visitStmtList_len _ orelse st4 hz
          have hfin : st4.stack ≠ [] ∨ no_top_return_list finalbody = true := by
            rcases h with h | h
            · exact Or.inl
                (stack_ne_nil_of_len (((hlen4.trans hlen3).trans hlen2).trans hpre) h)
            · exact Or.inr (hcomp h).2.2.2
          have h4 := visitStmtList_total st4 finalbody hfin
          simp only [visitStmt, hx, hy, hz, Option.some_bind]
          exact h4
  | withStmt items body l c =>
    have hpre := (visitExprList_preserves st items).2.2
    have hb : (visitExprList st items).stack ≠ [] ∨ no_top_return_list body = true := by
      rcases h with h | h
      · exact Or.inl (stack_ne_nil_of_len hpre h)
      · exact Or.inr (by simpa [no_top_return] using h)
    have h1 := visitStmtList_total (visitExprList st items) body hb
    simpa [visitStmt] using h1
  | assertStmt t l c => simp [visitStmt]
  | raiseStmt exc l c => simp [visitStmt]
  | exprStmt v l c => simp [visitStmt]
theorem visitStmtList_total (st : VState) (l : StmtList)
    (h : st.stack ≠ [] ∨ no_top_return_list l = true) : (visitStmtList st l).isSome = true := by
  cases l with
  | nil => simp [visitStmtList]
  | cons s rest =>
    have hs : st.stack ≠ [] ∨ no_top_return s = true := by
      rcases h with h | h
      · exact Or.inl h
      · simp [no_top_return_list] at h
        exact Or.inr h.1
    have h1 := visitStmt_total st s hs
    rcases hx : visitStmt st s with _ | st1
    · rw [hx] at h1
      simp at h1
    · have hlen := visitStmt_len st s st1 hx
      have hr : st1.stack ≠ [] ∨ no_top_return_list rest = true := by
        rcases h with h | h
        · exact Or.inl (stack_ne_nil_of_len hlen h)
        · simp [no_top_return_list] at h
          exact Or.inr h.2
      have h2 := visitStmtList_total st1 rest hr
      simp only [visitStmtList, hx, Option.some_bind]
      exact h2
theorem visitHandlers_total (st : VState) (hl : HandlerList)
    (h : st.stack ≠ [] ∨ no_top_return_handlers hl = true) :
    (visitHandlers st hl).isSome = true := by
  cases hl with
  | nil => simp [visitHandlers]
  | cons hb rest =>
    have hs : st.stack ≠ [] ∨ no_top_return_list hb = true := by
      rcases h with h | h
      · exact Or.inl h
      · simp [no_top_return_handlers] at h
        exact Or.inr h.1
    have h1 := visitStmtList_total st hb hs
    rcases hx : visitStmtList st hb with _ | st1
    · rw [hx] at h1
      simp at h1
    · have hlen := visitStmtList_len st hb st1 hx
      have hr : st1.stack ≠ [] ∨ no_top_return_handlers rest = true := by
        rcases h with h | h
        · exact Or.inl (stack_ne_nil_of_len hlen h)
        · simp [no_top_return_handlers] at h
          exact Or.inr h.2
      have h2 := visitHandlers_total st1 rest hr
      simp only [visitHandlers, hx, Option.some_bind]
      exact h2
end

/-! ### Claim theorems: trivial bodies, terminal kinds, module-level visits -/

theorem check_function_single_return (sc : Scope) (v : Option Expr) (l c : Nat) :
    check_function (StmtList.cons (Stmt.ret v l c) StmtList.nil) sc = [] := by
  simp [check_function, StmtList.length, last_is_return, StmtList.last?, is_return_stmt,
    StmtList.isNil]

/-- C6: the terminal-path check never flags a `Return`, `Raise`, `While`
or `Try` statement, whatever its contents: those four kinds fall through
every branch of `_check_implicit_return`'s dispatch and reach the final
`isinstance` test, which exempts them. -/
theorem terminal_kinds_never_flagged :
    (∀ (v : Option Expr) (l c : Nat), check_implicit_return (Stmt.ret v l c) = [])
    ∧ (∀ (exc : Option Expr) (l c : Nat),
        check_implicit_return (Stmt.raiseStmt exc l c) = [])
    ∧ (∀ (t : Expr) (body orelse : StmtList) (l c : Nat) (e : Option Nat),
        check_implicit_return (Stmt.whileStmt t body orelse l c e) = [])
    ∧ (∀ (body : StmtList) (handlers : HandlerList) (orelse finalbody : StmtList)
        (l c : Nat) (e : Option Nat),
        check_implicit_return (Stmt.tryStmt body handlers orelse finalbody l c e) = []) :=
  ⟨fun _ _ _ => rfl, fun _ _ _ => rfl, fun _ _ _ _ _ _ => rfl,
    fun _ _ _ _ _ _ _ => rfl⟩

/-- C7: a function whose body is exactly one `Return` statement (with or
without a value) contributes no diagnostics at all: the trivial-body
guard of `_check_function` skips every check, and the visit restores the
state unchanged. -/
theorem single_return_body_no_diagnostics (st : VState) (n : String) (v : Option Expr)
    (l c lf cf : Nat) :
    visitStmt st (Stmt.funcDef n (StmtList.cons (Stmt.ret v l c) StmtList.nil) lf cf)
      = some st := by
  obtain ⟨stack0, errors0⟩ := st
  have e1 : visitStmt ⟨stack0, errors0⟩
      (Stmt.funcDef n (StmtList.cons (Stmt.ret v l c) StmtList.nil) lf cf)
      = (match (visit_return_value
            ⟨(⟨[], [], [], [], [⟨v, l, c⟩]⟩ : Scope) :: stack0, errors0⟩ v).stack with
        | [] => none
        | sc :: rest =>
          some ⟨rest, (visit_return_value
              ⟨(⟨[], [], [], [], [⟨v, l, c⟩]⟩ : Scope) :: stack0, errors0⟩ v).errors
            ++ check_function (StmtList.cons (Stmt.ret v l c) StmtList.nil) sc⟩) := rfl
  rw [e1]
  have hp := visit_return_value_preserves
    ⟨(⟨[], [], [], [], [⟨v, l, c⟩]⟩ : Scope) :: stack0, errors0⟩ v
  rcases hy : (visit_return_value
      ⟨(⟨[], [], [], [], [⟨v, l, c⟩]⟩ : Scope) :: stack0, errors0⟩ v).stack
    with _ | ⟨sc, rest⟩
  · exfalso
    have hlen := hp.2.2
    rw [hy] at hlen
    simp at hlen
  · have htail := hp.2.1
    rw [hy] at htail
    simp at htail
    have herr := hp.1
    simp only [hy, check_function_single_return, List.append_nil, herr, htail]

/-- C9: visiting a `Name` or an `Assign` node while the scope stack is
empty (module-level code) is a total no-op: the guards of `visit_Name`
and `visit_Assign` return immediately, recording nothing and emitting
nothing, and the visit succeeds. -/
theorem module_level_name_assign_noop (st : VState) (targets : ExprList) (value : Expr)
    (l c : Nat) (v : String) (l2 c2 : Nat) (h : st.stack = []) :
    visitStmt st (Stmt.assign targets value l c) = some st
      ∧ visitExpr st (Expr.name v l2 c2) = st := by
  constructor
  · simp [visitStmt, visit_Assign, h]
  · simp [visitExpr, record_ref, h]

theorem module_level_name_assign_noop_witness :
    visitStmt ⟨[], []⟩ (Stmt.assign ExprList.nil (Expr.constOther 1 4) 1 0)
        = some ⟨[], []⟩
      ∧ visitExpr ⟨[], []⟩ (Expr.name "x" 1 0) = ⟨[], []⟩ :=
  module_level_name_assign_noop ⟨[], []⟩ ExprList.nil (Expr.constOther 1 4) 1 0 "x" 1 0 rfl

/-- C10: unlike `visit_Name`/`visit_Assign`, `visit_Return` dereferences
`self._stack[-1]` without a guard, so a `Return` visited with an empty
stack fails; and whenever every `Return` of the tree lies inside some
function definition, the traversal always succeeds, so that failure
branch is unreachable. -/
theorem return_requires_function_scope :
    (∀ (st : VState) (v : Option Expr) (l c : Nat), st.stack = [] →
      visitStmt st (Stmt.ret v l c) = none)
    ∧ (∀ (st : VState) (s : Stmt), no_top_return s = true →
      (visitStmt st s).isSome = true) := by
  constructor
  · intro st v l c h
    simp [visitStmt, h]
  · intro st s h
    exact visitStmt_total st s (Or.inr h)

theorem return_requires_function_scope_witness :
    visitStmt ⟨[], []⟩ (Stmt.ret none 1 0) = none
      ∧ (visitStmt ⟨[], []⟩
          (Stmt.funcDef "f" (StmtList.cons (Stmt.ret none 2 4) StmtList.nil) 1 0)).isSome
        = true :=
  ⟨return_requires_function_scope.1 ⟨[], []⟩ none 1 0 rfl,
    return_requires_function_scope.2 ⟨[], []⟩
      (Stmt.funcDef "f" (StmtList.cons (Stmt.ret none 2 4) StmtList.nil) 1 0) rfl⟩

/-! ### Claim theorems: branch exclusivity and emission order -/

/-- C2: `UnnecessaryReturnNone` and `ImplicitReturnValue` never co-occur
for one function scope: when some return carries a non-None value only
the implicit-value branch runs, otherwise only the return-none branch
runs, so findings of the other kind cannot appear. -/
theorem return_none_and_implicit_value_exclusive (body : StmtList) (sc : Scope) :
    (result_exists sc.returns = true →
      ∀ d ∈ check_function body sc, d.kind ≠ Kind.unnecessaryReturnNone)
    ∧ (result_exists sc.returns = false →
      ∀ d ∈ check_function body sc, d.kind ≠ Kind.implicitReturnValue) := by
  constructor
  · intro hres d hd
    unfold check_function at hd
    split at hd
    · simp at hd
    · split at hd
      · simp at hd
      · split at hd
        · simp_all
        · rcases List.mem_append.mp hd with h1 | h1
          · rcases List.mem_append.mp h1 with h2 | h2
            · rw [check_implicit_return_value_kinds sc.returns d h2]
              simp
            · rw [check_last_kinds body d h2]
              simp
          · rw [check_unnecessary_assign_all_kinds sc sc.returns d h1]
            simp
  · intro hres d hd
    unfold check_function at hd
    split at hd
    · simp at hd
    · split at hd
      · simp at hd
      · split at hd
        · rw [check_unnecessary_return_none_kinds sc.returns d hd]
          simp
        · simp_all

theorem return_none_and_implicit_value_exclusive_witness :
    (⟨Kind.unnecessaryReturnNone, 3, 4⟩ : Diagnostic) ∉ check_function mixedBody mixedScope :=
  fun hmem =>
    (return_none_and_implicit_value_exclusive mixedBody mixedScope).1 rfl _ hmem rfl

/-- C4 (amended): within one scope the findings come out grouped by
check, in the fixed order UnnecessaryReturnNone, ImplicitReturnValue,
ImplicitReturn, UnnecessaryAssign — not globally sorted by the traversal
position of the triggering node. -/
theorem check_order_grouped (body : StmtList) (sc : Scope) :
    ∃ a b c d : List Diagnostic,
      check_function body sc = a ++ b ++ c ++ d
        ∧ (∀ x ∈ a, x.kind = Kind.unnecessaryReturnNone)
        ∧ (∀ x ∈ b, x.kind = Kind.implicitReturnValue)
        ∧ (∀ x ∈ c, x.kind = Kind.implicitReturn)
        ∧ (∀ x ∈ d, x.kind = Kind.unnecessaryAssign) := by
  unfold check_function
  split
  · exact ⟨[], [], [], [], by simp, by simp, by simp, by simp⟩
  · split
    · exact ⟨[], [], [], [], by simp, by simp, by simp, by simp⟩
    · split
      · refine ⟨check_unnecessary_return_none sc.returns, [], [], [], by simp, ?_, ?_, ?_, ?_⟩
        · exact check_unnecessary_return_none_kinds sc.returns
        · simp
        · simp
        · simp
      · refine ⟨[], check_implicit_return_value sc.returns, check_last body,
          check_unnecessary_assign_all sc sc.returns, by simp, ?_, ?_, ?_, ?_⟩
        · simp
        · exact check_implicit_return_value_kinds sc.returns
        · exact check_last_kinds body
        · exact check_unnecessary_assign_all_kinds sc sc.returns

/-- C4 (counterexample): for `f(): x = 1; return x; foo()` the output is
the ImplicitReturn finding for the last statement (line 4) followed by
the UnnecessaryAssign finding for the returned name (line 3), although
the name at line 3 is traversed strictly before the statement at line 4 —
so within-scope output is not in traversal order of the triggering
nodes. -/
theorem traversal_order_counterexample :
    analyze interleavedModule
        = some [⟨Kind.implicitReturn, 4, 4⟩, ⟨Kind.unnecessaryAssign, 3, 11⟩]
      ∧ (stmtListOrder interleavedModule).findIdx (fun p => decide (p = (3, 11)))
          < (stmtListOrder interleavedModule).findIdx (fun p => decide (p = (4, 4))) :=
  ⟨rfl, by decide⟩

/-! ### Claim theorems: the unnecessary-assign analysis -/

theorem set_key_fresh (l : List (Nat × Nat)) (k v : Nat) (h : k ∉ l.map Prod.fst) :
    set_key l k v = l ++ [(k, v)] := by
  induction l with
  | nil => rfl
  | cons p rest ih =>
    simp only [List.map_cons, List.mem_cons] at h
    push_neg at h
    rw [set_key, if_neg (fun hh => h.1 hh.symm), ih h.2]
    rfl

/-- An unfolding of `_check_unnecessary_assign` on a bare name. -/
theorem check_unnecessary_assign_eq (sc : Scope) (v : String) (l c : Nat) :
    check_unnecessary_assign sc (Expr.name v l c)
      = if assignsOf sc v = [] then []
        else if refsOf sc v = [] then [⟨Kind.unnecessaryAssign, l, c⟩]
        else if has_refs_before_next_assign sc v l then []
        else if has_refs_or_assigns_within_try_or_loop sc v then []
        else [⟨Kind.unnecessaryAssign, l, c⟩] := rfl

/-- C1: when a variable is bound in the scope before the return line, its
only recorded read is the return's own read, and no recorded read or
assignment of it lies inside a recorded try/loop span, the check on the
return's bare-name value emits exactly one UnnecessaryAssign, at the
position of that value expression. -/
theorem unnecessary_assign_single_read (sc : Scope) (x : String) (L c : Nat)
    (hassign : ∃ a ∈ assignsOf sc x, a < L)
    (hrefs : refsOf sc x = [L])
    (hspan : ∀ item ∈ refsOf sc x ++ assignsOf sc x,
      (∀ p ∈ sc.tries, ¬(p.1 < item ∧ item ≤ p.2))
        ∧ (∀ p ∈ sc.loops, ¬(p.1 < item ∧ item ≤ p.2))) :
    check_unnecessary_assign sc (Expr.name x L c) = [⟨Kind.unnecessaryAssign, L, c⟩] := by
  obtain ⟨a, ha, haL⟩ := hassign
  have hA : assignsOf sc x ≠ [] := by
    intro hh
    rw [hh] at ha
    exact absurd ha (List.not_mem_nil a)
  have hR : refsOf sc x ≠ [] := by
    rw [hrefs]
    simp
  have hB : has_refs_before_next_assign sc x L = false := by
    unfold has_refs_before_next_assign
    rw [hrefs]
    simp
  have hS : has_refs_or_assigns_within_try_or_loop sc x = false := by
    unfold has_refs_or_assigns_within_try_or_loop
    rw [List.any_eq_false]
    intro item hitem
    have hsp := hspan item hitem
    simp only [Bool.not_eq_true]
    rw [Bool.or_eq_false_iff]
    constructor
    · unfold within_any
      rw [List.any_eq_false]
      intro p hp
      have h2 := hsp.1 p hp
      simp only [Bool.and_eq_true, decide_eq_true_eq, not_and]
      intro h3 h4
      exact h2 ⟨h3, h4⟩
    · unfold within_any
      rw [List.any_eq_false]
      intro p hp
      have h2 := hsp.2 p hp
      simp only [Bool.and_eq_true, decide_eq_true_eq, not_and]
      intro h3 h4
      exact h2 ⟨h3, h4⟩
  rw [check_unnecessary_assign_eq, if_neg hA, if_neg hR, hB]
  simp [hS]

theorem unnecessary_assign_single_read_witness :
    check_unnecessary_assign singleUseScope (Expr.name "x" 3 11)
      = [⟨Kind.unnecessaryAssign, 3, 11⟩] :=
  unnecessary_assign_single_read singleUseScope "x" 3 11
    ⟨2, by decide, by decide⟩ (by decide) (by decide)

/-- C3: span suppression.  First part: if the return's own read is
recorded and some recorded read or assignment of the variable lies
strictly inside a recorded try or loop span, no UnnecessaryAssign is
emitted.  Second and third parts: adding a fresh try span (resp. loop
span) to the scope never turns an empty finding list into a nonempty
one. -/
theorem unnecessary_assign_span_suppression :
    (∀ (sc : Scope) (x : String) (L c : Nat),
      L ∈ refsOf sc x →
      (∃ item, (item ∈ refsOf sc x ∨ item ∈ assignsOf sc x)
        ∧ ((∃ p ∈ sc.tries, p.1 < item ∧ item ≤ p.2)
          ∨ (∃ p ∈ sc.loops, p.1 < item ∧ item ≤ p.2))) →
      check_unnecessary_assign sc (Expr.name x L c) = [])
    ∧ (∀ (sc : Scope) (e : Expr) (s en : Nat),
      s ∉ sc.tries.map Prod.fst →
      check_unnecessary_assign sc e = [] →
      check_unnecessary_assign { sc with tries := set_key sc.tries s en } e = [])
    ∧ (∀ (sc : Scope) (e : Expr) (s en : Nat),
      s ∉ sc.loops.map Prod.fst →
      check_unnecessary_assign sc e = [] →
      check_unnecessary_assign { sc with loops := set_key sc.loops s en } e = []) := by
  have hsupp : ∀ (sc : Scope) (x : String),
      (∃ item, (item ∈ refsOf sc x ∨ item ∈ assignsOf sc x)
        ∧ ((∃ p ∈ sc.tries, p.1 < item ∧ item ≤ p.2)
          ∨ (∃ p ∈ sc.loops, p.1 < item ∧ item ≤ p.2))) →
      has_refs_or_assigns_within_try_or_loop sc x = true := by
    intro sc x hwit
    obtain ⟨item, hmem, hsp⟩ := hwit
    unfold has_refs_or_assigns_within_try_or_loop
    rw [List.any_eq_true]
    refine ⟨item, List.mem_append.mpr hmem, ?_⟩
    rw [Bool.or_eq_true]
    rcases hsp with hh | hh
    · left
      unfold within_any
      rw [List.any_eq_true]
      obtain ⟨p, hp, h1, h2⟩ := hh
      exact ⟨p, hp, by simp [h1, h2]⟩
    · right
      unfold within_any
      rw [List.any_eq_true]
      obtain ⟨p, hp, h1, h2⟩ := hh
      exact ⟨p, hp, by simp [h1, h2]⟩
  refine ⟨?_, ?_, ?_⟩
  · intro sc x L c hL hwit
    by_cases hA : assignsOf sc x = []
    · rw [check_unnecessary_assign_eq, if_pos hA]
    · have hR : refsOf sc x ≠ [] := by
        intro hh
        rw [hh] at hL
        exact absurd hL (List.not_mem_nil L)
      have hS := hsupp sc x hwit
      rw [check_unnecessary_assign_eq, if_neg hA, if_neg hR]
      by_cases hB : has_refs_before_next_assign sc x L
      · simp [hB]
      · simp [hB, hS]
  · intro sc e s en hfresh hzero
    cases e with
    | name v L c =>
      have etr : ({ sc with tries := set_key sc.tries s en } : Scope).tries
          = sc.tries ++ [(s, en)] := by
        simp [set_key_fresh sc.tries s en hfresh]
      have ea : assignsOf { sc with tries := set_key sc.tries s en } v = assignsOf sc v := rfl
      have er : refsOf { sc with tries := set_key sc.tries s en } v = refsOf sc v := rfl
      have eb : has_refs_before_next_assign { sc with tries := set_key sc.tries s en } v L
          = has_refs_before_next_assign sc v L := rfl
      have esup : has_refs_or_assigns_within_try_or_loop sc v = true →
          has_refs_or_assigns_within_try_or_loop
            { sc with tries := set_key sc.tries s en } v = true := by
        intro hh
        unfold has_refs_or_assigns_within_try_or_loop at hh ⊢
        rw [List.any_eq_true] at hh ⊢
        obtain ⟨item, hmem, hp⟩ := hh
        refine ⟨item, hmem, ?_⟩
        rw [Bool.or_eq_true] at hp ⊢
        rcases hp with hp | hp
        · left
          unfold within_any at hp ⊢
          rw [etr, List.any_append, hp]
          rfl
        · right
          exact hp
      rw [check_unnecessary_assign_eq] at hzero ⊢
      rw [ea, er, eb]
      by_cases hA : assignsOf sc v = []
      · rw [if_pos hA]
      · rw [if_neg hA] at hzero ⊢
        by_cases hR : refsOf sc v = []
        · rw [if_pos hR] at hzero
          exact absurd hzero (by simp)
        · rw [if_neg hR] at hzero ⊢
          by_cases hB : has_refs_before_next_assign sc v L
          · simp [hB]
          · simp only [hB, if_false, Bool.false_eq_true, ite_false] at hzero ⊢
            by_cases hS : has_refs_or_assigns_within_try_or_loop sc v = true
            · simp [esup hS]
            · simp only [hS, if_false, Bool.false_eq_true, ite_false] at hzero
              exact absurd hzero (by simp)
    | constNone l c => exact hzero
    | constFalse l c => exact hzero
    | constOther l c => exact hzero
    | tuple elts l c => exact hzero
    | otherExpr children l c => exact hzero
  · intro sc e s en hfresh hzero
    cases e with
    | name v L c =>
      have elp : ({ sc with loops := set_key sc.loops s en } : Scope).loops
          = sc.loops ++ [(s, en)] := by
        simp [set_key_fresh sc.loops s en hfresh]
      have ea : assignsOf { sc with loops := set_key sc.loops s en } v = assignsOf sc v := rfl
      have er : refsOf { sc with loops := set_key sc.loops s en } v = refsOf sc v := rfl
      have eb : has_refs_before_next_assign { sc with loops := set_key sc.loops s en } v L
          = has_refs_before_next_assign sc v L := rfl
      have esup : has_refs_or_assigns_within_try_or_loop sc v = true →
          has_refs_or_assigns_within_try_or_loop
            { sc with loops := set_key sc.loops s en } v = true := by
        intro hh
        unfold has_refs_or_assigns_within_try_or_loop at hh ⊢
        rw [List.any_eq_true] at hh ⊢
        obtain ⟨item, hmem, hp⟩ := hh
        refine ⟨item, hmem, ?_⟩
        rw [Bool.or_eq_true] at hp ⊢
        rcases hp with hp | hp
        · left
          exact hp
        · right
          unfold within_any at hp ⊢
          rw [elp, List.any_append, hp]
          simp
      rw [check_unnecessary_assign_eq] at hzero ⊢
      rw [ea, er, eb]
      by_cases hA : assignsOf sc v = []
      · rw [if_pos hA]
      · rw [if_neg hA] at hzero ⊢
        by_cases hR : refsOf sc v = []
        · rw [if_pos hR] at hzero
          exact absurd hzero (by simp)
        · rw [if_neg hR] at hzero ⊢
          by_cases hB : has_refs_before_next_assign sc v L
          · simp [hB]
          · simp only [hB, if_false, Bool.false_eq_true, ite_false] at hzero ⊢
            by_cases hS : has_refs_or_assigns_within_try_or_loop sc v = true
            · simp [esup hS]
            · simp only [hS, if_false, Bool.false_eq_true, ite_false] at hzero
              exact absurd hzero (by simp)
    | constNone l c => exact hzero
    | constFalse l c => exact hzero
    | constOther l c => exact hzero
    | tuple elts l c => exact hzero
    | otherExpr children l c => exact hzero

theorem unnecessary_assign_span_suppression_witness :
    check_unnecessary_assign loopSuppressScope (Expr.name "x" 4 11) = []
      ∧ check_unnecessary_assign { plainScope with tries := set_key plainScope.tries 1 9 }
          (Expr.name "x" 4 11) = [] :=
  ⟨unnecessary_assign_span_suppression.1 loopSuppressScope "x" 4 11 (by decide)
      ⟨2, Or.inr (by decide), Or.inr (by decide)⟩,
    unnecessary_assign_span_suppression.2.1 plainScope (Expr.name "x" 4 11) 1 9 (by decide)
      (by decide)⟩

/-! ### Claim theorems: implicit returns and implicit return values -/

theorem last_isNil_false (l : StmtList) (s : Stmt) (h : l.last? = some s) :
    l.isNil = false := by
  cases l with
  | nil => simp [StmtList.last?] at h
  | cons a rest => rfl

/-- The value-carrying branch of `_check_function`: with a non-None
result, a nonempty and non-trivial body, the output is the
implicit-return-value findings, then the terminal-path findings for
`body[-1]`, then the unnecessary-assign findings. -/
theorem check_function_result_branch (body : StmtList) (sc : Scope)
    (hres : result_exists sc.returns = true)
    (hbody : body.isNil = false)
    (htriv : ((body.length == 1) && last_is_return body) = false) :
    check_function body sc
      = check_implicit_return_value sc.returns ++ check_last body
        ++ check_unnecessary_assign_all sc sc.returns := by
  have hret := result_exists_ne_nil sc.returns hres
  unfold check_function
  rw [hret, hbody, htriv, hres]
  simp

/-- C8: in a scope with a non-None-valued return, every bare `Return`
(no value at all) receives exactly one ImplicitReturnValue diagnostic at
its own position: the implicit-value findings of the scope are exactly
the bare returns, in recording order, and no other check contributes an
ImplicitReturnValue. -/
theorem implicit_return_value_per_bare_return (body : StmtList) (sc : Scope)
    (hres : result_exists sc.returns = true)
    (hbody : body.isNil = false)
    (htriv : ((body.length == 1) && last_is_return body) = false) :
    (check_function body sc).filter (fun d => decide (d.kind = Kind.implicitReturnValue))
      = (sc.returns.filter (fun r => r.value.isNone)).map
          (fun r => ⟨Kind.implicitReturnValue, r.lineno, r.col⟩) := by
  rw [check_function_result_branch body sc hres hbody htriv, List.filter_append,
    List.filter_append]
  have h1 : (check_implicit_return_value sc.returns).filter
      (fun d => decide (d.kind = Kind.implicitReturnValue))
      = check_implicit_return_value sc.returns := by
    rw [List.filter_eq_self]
    intro a ha
    simp [check_implicit_return_value_kinds sc.returns a ha]
  have h2 : (check_last body).filter
      (fun d => decide (d.kind = Kind.implicitReturnValue)) = [] := by
    rw [List.filter_eq_nil_iff]
    intro a ha
    simp [check_last_kinds body a ha]
  have h3 : (check_unnecessary_assign_all sc sc.returns).filter
      (fun d => decide (d.kind = Kind.implicitReturnValue)) = [] := by
    rw [List.filter_eq_nil_iff]
    intro a ha
    simp [check_unnecessary_assign_all_kinds sc sc.returns a ha]
  rw [h1, h2, h3, check_implicit_return_value_eq]
  simp

theorem implicit_return_value_per_bare_return_witness :
    (check_function mixedBody mixedScope).filter
        (fun d => decide (d.kind = Kind.implicitReturnValue))
      = [⟨Kind.implicitReturnValue, 3, 4⟩] := by
  rw [implicit_return_value_per_bare_return mixedBody mixedScope rfl rfl rfl]
  rfl

/-- C5: when the body's last statement is an `If` and the scope has a
non-None-valued return: a missing branch yields exactly one
ImplicitReturn at the `If` itself, while two branches that both end in a
`Return` yield none (the check recurses into each branch's last
statement independently). -/
theorem implicit_return_if_branches (body : StmtList) (sc : Scope) (t : Expr)
    (bb bo : StmtList) (l c : Nat)
    (hres : result_exists sc.returns = true)
    (hlast : body.last? = some (Stmt.ifStmt t bb bo l c)) :
    ((bb.isNil || bo.isNil) = true →
      (check_function body sc).filter (fun d => decide (d.kind = Kind.implicitReturn))
        = [⟨Kind.implicitReturn, l, c⟩])
    ∧ (∀ (v1 : Option Expr) (l1 c1 : Nat) (v2 : Option Expr) (l2 c2 : Nat),
        bb.last? = some (Stmt.ret v1 l1 c1) → bo.last? = some (Stmt.ret v2 l2 c2) →
        (check_function body sc).filter (fun d => decide (d.kind = Kind.implicitReturn))
          = []) := by
  have hbody : body.isNil = false := last_isNil_false body _ hlast
  have htriv : ((body.length == 1) && last_is_return body) = false := by
    rw [last_is_return, hlast]
    simp [is_return_stmt]
  have hbase : (check_function body sc).filter (fun d => decide (d.kind = Kind.implicitReturn))
      = check_implicit_return (Stmt.ifStmt t bb bo l c) := by
    rw [check_function_result_branch body sc hres hbody htriv, List.filter_append,
      List.filter_append]
    have h1 : (check_implicit_return_value sc.returns).filter
        (fun d => decide (d.kind = Kind.implicitReturn)) = [] := by
      rw [List.filter_eq_nil_iff]
      intro a ha
      simp [check_implicit_return_value_kinds sc.returns a ha]
    have h2 : (check_last body).filter
        (fun d => decide (d.kind = Kind.implicitReturn)) = check_last body := by
      rw [List.filter_eq_self]
      intro a ha
      simp [check_last_kinds body a ha]
    have h3 : (check_unnecessary_assign_all sc sc.returns).filter
        (fun d => decide (d.kind = Kind.implicitReturn)) = [] := by
      rw [List.filter_eq_nil_iff]
      intro a ha
      simp [check_unnecessary_assign_all_kinds sc sc.returns a ha]
    rw [h1, h2, h3, check_last_eq body _ hlast]
    simp
  constructor
  · intro hcond
    rw [hbase]
    simp [check_implicit_return, hcond]
  · intro v1 l1 c1 v2 l2 c2 hb1 hb2
    rw [hbase]
    have hnb : bb.isNil = false := last_isNil_false bb _ hb1
    have hno : bo.isNil = false := last_isNil_false bo _ hb2
    simp only [check_implicit_return, hnb, hno, Bool.or_self, Bool.false_eq_true, if_false]
    rw [check_last_eq bb _ hb1, check_last_eq bo _ hb2]
    rfl

theorem implicit_return_if_branches_witness :
    (check_function noElseBody noElseScope).filter
        (fun d => decide (d.kind = Kind.implicitReturn))
      = [⟨Kind.implicitReturn, 2, 4⟩]
    ∧ (check_function bothBody bothScope).filter
        (fun d => decide (d.kind = Kind.implicitReturn)) = [] :=
  ⟨(implicit_return_if_branches noElseBody noElseScope (Expr.name "c" 2 7)
      (StmtList.cons (Stmt.ret (some (Expr.constOther 2 17)) 2 10) StmtList.nil)
      StmtList.nil 2 4 rfl rfl).1 rfl,
    (implicit_return_if_branches bothBody bothScope (Expr.name "c" 2 7)
      (StmtList.cons (Stmt.ret (some (Expr.constOther 3 15)) 3 8) StmtList.nil)
      (StmtList.cons (Stmt.ret (some (Expr.constOther 5 15)) 5 8) StmtList.nil) 2 4
      rfl rfl).2 (some (Expr.constOther 3 15)) 3 8 (some (Expr.constOther 5 15)) 5 8
      rfl rfl⟩

/-! ### End-to-end sanity checks: the example scopes are exactly what the
traversal builds, and the full pipeline produces the expected findings -/

example : visitStmtList ⟨[emptyScope], []⟩ singleUseBody = some ⟨[singleUseScope], []⟩ := rfl

example : visitStmtList ⟨[emptyScope], []⟩ mixedBody = some ⟨[mixedScope], []⟩ := rfl

example : visitStmtList ⟨[emptyScope], []⟩ noElseBody = some ⟨[noElseScope], []⟩ := rfl

example : visitStmtList ⟨[emptyScope], []⟩ bothBody = some ⟨[bothScope], []⟩ := rfl

example : analyze (.cons (.funcDef "f" singleUseBody 1 0) .nil)
    = some [⟨Kind.unnecessaryAssign, 3, 11⟩] := rfl

example : analyze (.cons (.funcDef "f" mixedBody 1 0) .nil)
    = some [⟨Kind.implicitReturnValue, 3, 4⟩] := rfl

example : analyze (.cons (.funcDef "f" noElseBody 1 0) .nil)
    = some [⟨Kind.implicitReturn, 2, 4⟩] := rfl

example : analyze (.cons (.funcDef "f" bothBody 1 0) .nil) = some [] := rfl

example : analyze (.cons (.funcDef "f"
    (.cons (.ret (some (.constNone 2 11)) 2 4)
    (.cons (.ret (some (.constNone 3 11)) 3 4) .nil)) 1 0) .nil)
    = some [⟨Kind.unnecessaryReturnNone, 2, 4⟩, ⟨Kind.unnecessaryReturnNone, 3, 4⟩] := rfl

example : analyze (.cons (.funcDef "f"
    (.cons (.ret (some (.constNone 2 11)) 2 4) .nil) 1 0) .nil) = some [] := rfl

end Flake8Return
